import Mathlib

/-!
Shallow embedding of the CSV text archive pair (`CSVOutputArchive.saveCsv`,
`CSVInputArchive.loadCsv`) and the structural-wrapper serializers of
`csv.hpp`, together with proofs of the specification's claims about them.

Streams are modelled as lists of byte values (`Nat`, `0..255`).  The output
sink is a state holding the bytes accepted so far, the total number of bytes
the sink will accept (so that short writes can be exercised), and the
stream's badbit.  Saving returns the new sink state together with an
optional error message (`some msg` models the thrown `cereal::Exception`).
-/

namespace CerealCsv

/-- Output sink state: `buf` is the bytes accepted so far, `cap` the total
number of bytes the underlying sink will accept, `bad` the stream's badbit
(set by `operator<<` on a failed insertion, checked by later insertions). -/
structure OStream where
  buf : List Nat
  cap : Nat
  bad : Bool
deriving DecidableEq, Repr

/-- `rdbuf()->sputn(begin, size)`: the sink accepts as many of the requested
bytes as it has room for and reports how many it accepted. -/
def sputn (s : OStream) (data : List Nat) : OStream × Nat :=
  let k := min data.length (s.cap - s.buf.length)
  ({ s with buf := s.buf ++ data.take k }, k)

/-- The message of the `cereal::Exception` thrown by `saveCsv` on a short
write: built from the requested size and the count actually written. -/
def writeFailMsg (size written : Nat) : String :=
  "Failed to write " ++ toString size ++ " bytes to output stream! Wrote " ++ toString written

/-- The arithmetic branch of `saveCsv`: the formatted token (formatter output
plus the trailing space) is pushed with one `sputn` call; if the sink accepted
fewer bytes than requested an exception is raised carrying both counts.  The
partially accepted bytes stay in the sink either way. -/
def saveCsvToken (tok : List Nat) (s : OStream) : OStream × Option String :=
  let r := sputn s tok
  if r.2 = tok.length then (r.1, none) else (r.1, some (writeFailMsg tok.length r.2))

/-- Base-10 digits of `n`, least significant first, computed with explicit
fuel so that the definition is structurally recursive (and hence evaluable
by the kernel); `digitsBase10 fuel n = Nat.digits 10 n` whenever `n ≤ fuel`
(proved below). -/
def digitsBase10 : Nat → Nat → List Nat
  | _, 0 => []
  | 0, _ => []
  | fuel + 1, n => n % 10 :: digitsBase10 fuel (n / 10)

/-- `std::to_chars(begin, begin + 64, m, 10)` for a nonnegative value:
base-10 digits, most significant first, no leading zeros, `"0"` for zero. -/
def natToChars (m : Nat) : List Nat :=
  if m = 0 then [48] else ((digitsBase10 m m).map (fun d => d + 48)).reverse

/-- `std::to_chars(begin, begin + 64, n, 10)` for a signed value: a leading
`'-'` (byte 45) for negatives, then the digits of the magnitude. -/
def intToChars (n : Int) : List Nat :=
  if n < 0 then 45 :: natToChars n.natAbs else natToChars n.natAbs

/-- The full integer token written by `saveCsv`: digits then one space. -/
def intToken (n : Int) : List Nat := intToChars n ++ [32]

/-- `saveCsv` instantiated at an integral type. -/
def saveCsvInt (n : Int) (s : OStream) : OStream × Option String :=
  saveCsvToken (intToken n) s

/-- One `operator<<` insertion: a no-op when the badbit is already set,
otherwise pushes the bytes and sets the badbit if the sink accepted fewer
than all of them.  No exception is raised on this path. -/
def insertBytes (s : OStream) (data : List Nat) : OStream :=
  if s.bad then s
  else
    let r := sputn s data
    if r.2 = data.length then r.1 else { r.1 with bad := true }

/-- The `std::string` branch of `saveCsv`: `itsStream << t << ' '`.  Two
stream insertions, no short-write check, never an exception. -/
def saveCsvStr (str : List Nat) (s : OStream) : OStream × Option String :=
  (insertBytes (insertBytes s str) [32], none)

/-- The token scan of `loadCsv`: bytes are taken one at a time with
`sbumpc`, cast to `char`; the loop breaks on `(char) -1` — which end-of-input
and the byte `0xFF` (255) both produce — and on the space byte 32, neither of
which enters the token.  Returns the token and the unconsumed remainder of
the stream. -/
def scanToken : List Nat → List Nat × List Nat
  | [] => ([], [])
  | b :: bs =>
    if b = 255 ∨ b = 32 then ([], bs)
    else ((b :: (scanToken bs).1), (scanToken bs).2)

/-- Number of stores `*end = ...` the scan loop performs on a given stream:
every loop iteration stores the byte it read (the terminating byte — space,
`0xFF`, or the `(char) -1` produced at end-of-input — included) before
testing it.  The stores land at buffer offsets `0, 1, ...`, so the largest
offset written is `scanStores s - 1`. -/
def scanStores : List Nat → Nat
  | [] => 1
  | b :: bs => if b = 255 ∨ b = 32 then 1 else 1 + scanStores bs

/-- Decimal digit bytes `'0'..'9'`. -/
def isDigit (b : Nat) : Bool := decide (48 ≤ b ∧ b ≤ 57)

/-- Value of a most-significant-first digit-byte list. -/
def digitsToNat (ds : List Nat) : Nat :=
  ds.foldl (fun a d => a * 10 + (d - 48)) 0

/-- The digit-run part of `std::from_chars`: the longest prefix of decimal
digits; `none` when there is no digit (invalid pattern, value untouched). -/
def parseNatToken (bs : List Nat) : Option Nat :=
  let ds := bs.takeWhile isDigit
  if ds.isEmpty then none else some (digitsToNat ds)

/-- `std::from_chars(begin, end, t, 10)` for an integral type with range
`[lo, hi]`: an optional leading minus (accepted only for signed types,
i.e. `lo < 0`) followed by decimal digits; on an invalid pattern or an
out-of-range value the destination is left unmodified. -/
def fromCharsInt (lo hi : Int) (bs : List Nat) (t : Int) : Int :=
  match bs with
  | [] => t
  | b :: rest =>
    if b = 45 then
      if lo < 0 then
        match parseNatToken rest with
        | none => t
        | some m => if lo ≤ -(m : Int) ∧ -(m : Int) ≤ hi then -(m : Int) else t
      else t
    else
      match parseNatToken (b :: rest) with
      | none => t
      | some m => if lo ≤ (m : Int) ∧ (m : Int) ≤ hi then (m : Int) else t

/-- `loadCsv` for any destination type: scan one token, then hand the token
bytes to that type's parser (which receives the destination's prior value
and returns its new value). -/
def loadCsvWith {α : Type} (parse : List Nat → α → α) (t : α) (s : List Nat) :
    α × List Nat :=
  ((parse (scanToken s).1 t), (scanToken s).2)

/-- `loadCsv` instantiated at an integral type with range `[lo, hi]`. -/
def loadCsvInt (lo hi : Int) (t : Int) (s : List Nat) : Int × List Nat :=
  loadCsvWith (fromCharsInt lo hi) t s

/-- `loadCsv` instantiated at `std::string`: the destination is assigned
the token bytes verbatim (`t = std::string(begin, end)`), so the prior
destination value is irrelevant. -/
def loadCsvStr (s : List Nat) : List Nat × List Nat := scanToken s

/-- `cereal::NameValuePair`: a field name plus the wrapped value. -/
structure NameValuePair (α : Type) where
  name : List Nat
  value : α

/-- `cereal::SizeTag`: the element count of a collection. -/
structure SizeTag (α : Type) where
  size : α

/-- `serialize(ar, NameValuePair)` on the output archive: `ar(t.value)`. -/
def serializeNVPOut (p : NameValuePair Int) (s : OStream) : OStream × Option String :=
  saveCsvInt p.value s

/-- `serialize(ar, NameValuePair)` on the input archive: `ar(t.value)`. -/
def serializeNVPIn (lo hi : Int) (p : NameValuePair Int) (s : List Nat) :
    NameValuePair Int × List Nat :=
  (⟨p.name, (loadCsvInt lo hi p.value s).1⟩, (loadCsvInt lo hi p.value s).2)

/-- `serialize(ar, SizeTag)` on the output archive: `ar(t.size)`. -/
def serializeSizeTagOut (st : SizeTag Int) (s : OStream) : OStream × Option String :=
  saveCsvInt st.size s

/-- `serialize(ar, SizeTag)` on the input archive: `ar(t.size)`. -/
def serializeSizeTagIn (lo hi : Int) (st : SizeTag Int) (s : List Nat) :
    SizeTag Int × List Nat :=
  (⟨(loadCsvInt lo hi st.size s).1⟩, (loadCsvInt lo hi st.size s).2)

/-! ### Properties of the decimal formatter -/

theorem digitsBase10_eq_digits :
    ∀ fuel n : Nat, n ≤ fuel → digitsBase10 fuel n = Nat.digits 10 n := by
  intro fuel
  induction fuel with
  | zero =>
    intro n hn
    interval_cases n
    simp [digitsBase10]
  | succ fuel ih =>
    intro n hn
    cases n with
    | zero => simp [digitsBase10]
    | succ m =>
      rw [show digitsBase10 (fuel + 1) (m + 1) = (m + 1) % 10 :: digitsBase10 fuel ((m + 1) / 10) from rfl]
      rw [Nat.digits_def' (b := 10) (by norm_num) (Nat.succ_pos m)]
      rw [ih ((m + 1) / 10) (by omega)]

theorem natToChars_eq (m : Nat) (hm : m ≠ 0) :
    natToChars m = ((Nat.digits 10 m).map (fun d => d + 48)).reverse := by
  unfold natToChars
  rw [if_neg hm, digitsBase10_eq_digits m m le_rfl]

theorem mem_natToChars {b m : Nat} (hb : b ∈ natToChars m) : 48 ≤ b ∧ b ≤ 57 := by
  by_cases hm : m = 0
  · subst hm
    have hb48 : b = 48 := by simpa [natToChars] using hb
    omega
  · rw [natToChars_eq m hm] at hb
    rw [List.mem_reverse, List.mem_map] at hb
    obtain ⟨d, hd, rfl⟩ := hb
    have : d < 10 := Nat.digits_lt_base (by norm_num) hd
    omega

theorem natToChars_ne_nil (m : Nat) : natToChars m ≠ [] := by
  by_cases hm : m = 0
  · subst hm; simp [natToChars]
  · rw [natToChars_eq m hm]
    simp [Nat.digits_ne_nil_iff_ne_zero.mpr hm]

theorem digitsToNat_snoc (xs : List Nat) (y : Nat) :
    digitsToNat (xs ++ [y]) = digitsToNat xs * 10 + (y - 48) := by
  unfold digitsToNat
  rw [List.foldl_append]
  rfl

theorem digitsToNat_map_reverse (ds : List Nat) :
    digitsToNat ((ds.map (fun d => d + 48)).reverse) = Nat.ofDigits 10 ds := by
  induction ds with
  | nil => rfl
  | cons d tl ih =>
    rw [List.map_cons, List.reverse_cons, digitsToNat_snoc, ih, Nat.ofDigits_cons]
    omega

theorem digitsToNat_natToChars (m : Nat) : digitsToNat (natToChars m) = m := by
  by_cases hm : m = 0
  · subst hm; rfl
  · rw [natToChars_eq m hm, digitsToNat_map_reverse, Nat.ofDigits_digits]

theorem natToChars_length_le {m k : Nat} (hk : 1 ≤ k) (h : m < 10 ^ k) :
    (natToChars m).length ≤ k := by
  by_cases hm : m = 0
  · subst hm; simpa [natToChars] using hk
  · rw [natToChars_eq m hm, List.length_reverse, List.length_map]
    by_contra hlen
    push_neg at hlen
    have h1 : 10 ^ (Nat.digits 10 m).length ≤ 10 * m :=
      Nat.base_pow_length_digits_le 10 m (by norm_num) hm
    have h2 : 10 ^ (k + 1) ≤ 10 ^ (Nat.digits 10 m).length :=
      Nat.pow_le_pow_right (by norm_num) hlen
    have h3 : 10 * m < 10 * 10 ^ k := by omega
    rw [pow_succ] at h2
    omega

/-! ### Properties of the token scan -/

theorem scanToken_append_term {tok : List Nat} (term : Nat) (rest : List Nat)
    (hterm : term = 32 ∨ term = 255) (h : ∀ b ∈ tok, b ≠ 32 ∧ b ≠ 255) :
    scanToken (tok ++ term :: rest) = (tok, rest) := by
  induction tok with
  | nil =>
    rcases hterm with h32 | h255 <;> subst_vars <;> simp [scanToken]
  | cons b bs ih =>
    have hb := h b (List.mem_cons_self b bs)
    have hbs : ∀ x ∈ bs, x ≠ 32 ∧ x ≠ 255 := fun x hx => h x (List.mem_cons_of_mem b hx)
    rw [List.cons_append]
    rw [show scanToken (b :: (bs ++ term :: rest)) =
      if b = 255 ∨ b = 32 then ([], bs ++ term :: rest)
      else ((b :: (scanToken (bs ++ term :: rest)).1), (scanToken (bs ++ term :: rest)).2) from rfl]
    rw [if_neg (by tauto), ih hbs]

theorem scanToken_no_delim {s : List Nat} (h : ∀ b ∈ s, b ≠ 32 ∧ b ≠ 255) :
    scanToken s = (s, []) := by
  induction s with
  | nil => rfl
  | cons b bs ih =>
    have hb := h b (List.mem_cons_self b bs)
    have hbs : ∀ x ∈ bs, x ≠ 32 ∧ x ≠ 255 := fun x hx => h x (List.mem_cons_of_mem b hx)
    rw [show scanToken (b :: bs) =
      if b = 255 ∨ b = 32 then ([], bs)
      else ((b :: (scanToken bs).1), (scanToken bs).2) from rfl]
    rw [if_neg (by tauto), ih hbs]

theorem scanToken_not_mem_255 : ∀ s : List Nat, 255 ∉ (scanToken s).1 := by
  intro s
  induction s with
  | nil => simp [scanToken]
  | cons b bs ih =>
    rw [show scanToken (b :: bs) =
      if b = 255 ∨ b = 32 then ([], bs)
      else ((b :: (scanToken bs).1), (scanToken bs).2) from rfl]
    by_cases hb : b = 255 ∨ b = 32
    · rw [if_pos hb]; simp
    · rw [if_neg hb]
      push_neg at hb
      simp only [List.mem_cons, not_or]
      exact ⟨fun he => hb.1 he.symm, ih⟩

/-! ### Properties of the numeric parser -/

theorem takeWhile_isDigit_natToChars (m : Nat) :
    (natToChars m).takeWhile isDigit = natToChars m := by
  rw [List.takeWhile_eq_self_iff]
  intro b hb
  have := mem_natToChars hb
  simp only [isDigit, decide_eq_true_eq]
  omega

theorem parseNatToken_natToChars (m : Nat) : parseNatToken (natToChars m) = some m := by
  obtain ⟨b, rest, hbr⟩ := List.exists_cons_of_ne_nil (natToChars_ne_nil m)
  unfold parseNatToken
  rw [takeWhile_isDigit_natToChars, hbr]
  have hred : ((if (b :: rest).isEmpty = true then none else some (digitsToNat (b :: rest))) :
      Option Nat) = some (digitsToNat (b :: rest)) := rfl
  rw [hred, ← hbr, digitsToNat_natToChars]

theorem fromCharsInt_intToChars {lo hi n : Int} (t : Int)
    (hlo : lo ≤ n) (hhi : n ≤ hi) :
    fromCharsInt lo hi (intToChars n) t = n := by
  by_cases hneg : n < 0
  · have hchars : intToChars n = 45 :: natToChars n.natAbs := by
      unfold intToChars; rw [if_pos hneg]
    rw [hchars]
    rw [show fromCharsInt lo hi (45 :: natToChars n.natAbs) t =
      if (45 : Nat) = 45 then
        if lo < 0 then
          match parseNatToken (natToChars n.natAbs) with
          | none => t
          | some m => if lo ≤ -(m : Int) ∧ -(m : Int) ≤ hi then -(m : Int) else t
        else t
      else
        match parseNatToken (45 :: natToChars n.natAbs) with
        | none => t
        | some m => if lo ≤ (m : Int) ∧ (m : Int) ≤ hi then (m : Int) else t from rfl]
    rw [if_pos rfl, if_pos (lt_of_le_of_lt hlo hneg), parseNatToken_natToChars]
    have habs : -((n.natAbs : Nat) : Int) = n := by
      have := Int.ofNat_natAbs_of_nonpos (le_of_lt hneg)
      omega
    show (if lo ≤ -((n.natAbs : Nat) : Int) ∧ -((n.natAbs : Nat) : Int) ≤ hi then
      -((n.natAbs : Nat) : Int) else t) = n
    rw [habs, if_pos ⟨hlo, hhi⟩]
  · push_neg at hneg
    have hchars : intToChars n = natToChars n.natAbs := by
      unfold intToChars; rw [if_neg (not_lt.mpr hneg)]
    obtain ⟨b, rest, hbr⟩ := List.exists_cons_of_ne_nil (natToChars_ne_nil n.natAbs)
    have hb48 : 48 ≤ b ∧ b ≤ 57 := mem_natToChars (by rw [hbr]; exact List.mem_cons_self b rest)
    rw [hchars, hbr]
    rw [show fromCharsInt lo hi (b :: rest) t =
      if b = 45 then
        if lo < 0 then
          match parseNatToken rest with
          | none => t
          | some m => if lo ≤ -(m : Int) ∧ -(m : Int) ≤ hi then -(m : Int) else t
        else t
      else
        match parseNatToken (b :: rest) with
        | none => t
        | some m => if lo ≤ (m : Int) ∧ (m : Int) ≤ hi then (m : Int) else t from rfl]
    rw [if_neg (by omega)]
    rw [← hbr, parseNatToken_natToChars]
    have habs : ((n.natAbs : Nat) : Int) = n := Int.natAbs_of_nonneg hneg
    show (if lo ≤ ((n.natAbs : Nat) : Int) ∧ ((n.natAbs : Nat) : Int) ≤ hi then
      ((n.natAbs : Nat) : Int) else t) = n
    rw [habs, if_pos ⟨hlo, hhi⟩]

/-! ### Properties of the writer -/

theorem intToChars_clean (n : Int) : ∀ b ∈ intToChars n, b ≠ 32 ∧ b ≠ 255 := by
  intro b hb
  unfold intToChars at hb
  by_cases hn : n < 0
  · rw [if_pos hn] at hb
    rcases List.mem_cons.mp hb with h45 | hmem
    · omega
    · have := mem_natToChars hmem; omega
  · rw [if_neg hn] at hb
    have := mem_natToChars hb; omega

theorem intToken_length_le {n : Int}
    (h1 : -(2 ^ 63) ≤ n) (h2 : n < 2 ^ 64) : (intToken n).length ≤ 64 := by
  have hpow63 : ((2 : Int) ^ 63) = 9223372036854775808 := by norm_num
  have hpow64 : ((2 : Int) ^ 64) = 18446744073709551616 := by norm_num
  rw [hpow63] at h1
  rw [hpow64] at h2
  have habs : n.natAbs < 10 ^ 20 := by
    have h10 : (10 : Nat) ^ 20 = 100000000000000000000 := by norm_num
    rw [h10]
    omega
  have hlen : (natToChars n.natAbs).length ≤ 20 := natToChars_length_le (by norm_num) habs
  unfold intToken intToChars
  by_cases hn : n < 0
  · rw [if_pos hn]
    simp only [List.length_append, List.length_cons, List.length_nil]
    omega
  · rw [if_neg hn]
    simp only [List.length_append, List.length_cons, List.length_nil]
    omega

theorem saveCsvToken_fits (tok : List Nat) (s : OStream)
    (h : tok.length ≤ s.cap - s.buf.length) :
    saveCsvToken tok s = ({ s with buf := s.buf ++ tok }, none) := by
  unfold saveCsvToken sputn
  rw [min_eq_left h]
  simp [List.take_length]

theorem insertBytes_fits (s : OStream) (data : List Nat) (hbad : s.bad = false)
    (h : data.length ≤ s.cap - s.buf.length) :
    insertBytes s data = { s with buf := s.buf ++ data } := by
  unfold insertBytes sputn
  rw [hbad]
  simp [min_eq_left h, List.take_length]

/-! ### Claim C1: integer round-trip -/

/-- C1: for every integer `n` representable in a native width (all widths up
to 64 bits, signed or unsigned, lie in `[-2^63, 2^64)`) and any integral
destination type whose range `[lo, hi]` contains `n` (the "same integer
type" as the one saved), `saveCsv` writes the token `intToken n` to the sink
without error, and `loadCsv` on that token yields exactly `n`, consuming the
whole stream. -/
theorem c1_int_roundtrip (lo hi n t : Int)
    (h1 : -(2 ^ 63) ≤ n) (h2 : n < 2 ^ 64) (hlo : lo ≤ n) (hhi : n ≤ hi) :
    saveCsvInt n ⟨[], 64, false⟩ = (⟨intToken n, 64, false⟩, none) ∧
    loadCsvInt lo hi t (intToken n) = (n, []) := by
  constructor
  · unfold saveCsvInt
    have hfit : (intToken n).length ≤ (OStream.mk [] 64 false).cap -
        (OStream.mk [] 64 false).buf.length := by
      simpa using intToken_length_le h1 h2
    rw [saveCsvToken_fits (intToken n) ⟨[], 64, false⟩ hfit]
    simp
  · unfold loadCsvInt loadCsvWith intToken
    rw [show intToChars n ++ [32] = intToChars n ++ 32 :: [] from rfl]
    rw [scanToken_append_term 32 [] (Or.inl rfl) (intToChars_clean n)]
    rw [fromCharsInt_intToChars t hlo hhi]

/-- Witness for C1 at the concrete signed value `n = -42` loaded as a signed
8-bit integer. -/
theorem c1_int_roundtrip_witness :
    saveCsvInt (-42) ⟨[], 64, false⟩ = (⟨intToken (-42), 64, false⟩, none) ∧
    loadCsvInt (-128) 127 0 (intToken (-42)) = (-42, []) :=
  c1_int_roundtrip (-128) 127 (-42) 0 (by norm_num) (by norm_num) (by norm_num)
    (by norm_num)

/-! ### Claim C3: text round-trip -/

/-- C3 counterexample: the one-byte string `0xFF` contains no space, yet
after `saveCsv` writes it (`operator<<` pushes the byte unchecked) the token
scan of `loadCsv` stops at the `0xFF` byte as if at end-of-input, so the
decoded string is empty rather than the original string. -/
theorem c3_text_roundtrip_cex :
    saveCsvStr [255] ⟨[], 64, false⟩ = (⟨[255, 32], 64, false⟩, none) ∧
    loadCsvStr [255, 32] = ([], [32]) ∧
    ([] : List Nat) ≠ [255] := by
  refine ⟨by decide, by decide, by decide⟩

/-- C3 amended: for every string of at most 63 bytes none of which is the
space delimiter (32) or `0xFF` (255, which the scan cannot distinguish from
end-of-input), `saveCsv` writes the string verbatim plus one delimiter and
`loadCsv` returns exactly the original bytes, with no escaping and no
trimming beyond delimiter exclusion.  (Strings longer than 63 bytes are
excluded because the scan then stores past the fixed 64-byte scratch buffer;
see the C4 development.) -/
theorem c3_text_roundtrip_amended (s rest : List Nat)
    (hclean : ∀ b ∈ s, b ≠ 32 ∧ b ≠ 255) (hlen : s.length ≤ 63) :
    saveCsvStr s ⟨[], 64, false⟩ = (⟨s ++ [32], 64, false⟩, none) ∧
    loadCsvStr (s ++ 32 :: rest) = (s, rest) := by
  constructor
  · unfold saveCsvStr
    rw [insertBytes_fits ⟨[], 64, false⟩ s rfl (by simp; omega)]
    rw [insertBytes_fits ⟨[] ++ s, 64, false⟩ [32] rfl (by simp; omega)]
    simp
  · exact scanToken_append_term 32 rest (Or.inl rfl) hclean

/-- Witness for the amended C3 at the string `"abc"` followed by more
stream content. -/
theorem c3_text_roundtrip_amended_witness :
    saveCsvStr [97, 98, 99] ⟨[], 64, false⟩ = (⟨[97, 98, 99] ++ [32], 64, false⟩, none) ∧
    loadCsvStr ([97, 98, 99] ++ 32 :: [100]) = ([97, 98, 99], [100]) :=
  c3_text_roundtrip_amended [97, 98, 99] [100] (by decide) (by decide)

/-! ### Claim C4: the 64-byte scratch buffer bound -/

/-- The scan loop performs exactly one store per token byte plus one store
of the terminating byte (delimiter, `0xFF`, or the `(char) -1` produced at
end-of-input), at consecutive buffer offsets starting from 0. -/
theorem scanStores_eq_token_length (s : List Nat) :
    scanStores s = (scanToken s).1.length + 1 := by
  induction s with
  | nil => rfl
  | cons b bs ih =>
    by_cases hb : b = 255 ∨ b = 32
    · rw [show scanStores (b :: bs) = if b = 255 ∨ b = 32 then 1 else 1 + scanStores bs from rfl]
      rw [show scanToken (b :: bs) = if b = 255 ∨ b = 32 then ([], bs)
        else ((b :: (scanToken bs).1), (scanToken bs).2) from rfl]
      rw [if_pos hb, if_pos hb]
      rfl
    · rw [show scanStores (b :: bs) = if b = 255 ∨ b = 32 then 1 else 1 + scanStores bs from rfl]
      rw [show scanToken (b :: bs) = if b = 255 ∨ b = 32 then ([], bs)
        else ((b :: (scanToken bs).1), (scanToken bs).2) from rfl]
      rw [if_neg hb, if_neg hb, ih]
      simp only [List.length_cons]
      omega

/-- C4 is violated by the code: on a stream beginning with 64 non-delimiter,
non-`0xFF` bytes (here 64 `'a'` bytes) the scan performs 65 stores, the last
one at buffer offset 64 — one past the end of the 64-byte scratch buffer
`char begin[64]`.  The loop has no bound check, so the claimed 64-byte
maximum token length is not enforced. -/
theorem c4_scan_overflow :
    scanStores (List.replicate 64 97) = 65 ∧ ¬ scanStores (List.replicate 64 97) ≤ 64 := by
  refine ⟨by decide, by decide⟩

/-! ### Claim C5: short-write handling -/

/-- C5 counterexample: saving the string `"abc"` into a sink that accepts
only 2 of the 4 requested bytes raises no error at all — the string branch
of `saveCsv` uses `operator<<`, which merely sets the stream's badbit; the
short write is silently ignored (`.2 = none` means no exception). -/
theorem c5_write_failure_cex :
    saveCsvStr [97, 98, 99] ⟨[], 2, false⟩ = (⟨[97, 98], 2, true⟩, none) ∧
    (saveCsvStr [97, 98, 99] ⟨[], 2, false⟩).2 = none := by
  refine ⟨by decide, by decide⟩

/-- C5 amended: for the arithmetic (integer and floating-point) branch of
`saveCsv` — which pushes the formatted token with a single checked `sputn`
call — a sink that accepts fewer bytes than requested makes the operation
fail with the exception carrying the requested and actual byte counts; there
is no retry and the partially accepted bytes are left in the sink (no
rollback).  The text-string branch performs no such check and never raises. -/
theorem c5_write_failure_amended (tok : List Nat) (s : OStream)
    (hshort : (sputn s tok).2 < tok.length) :
    (saveCsvToken tok s).2 = some (writeFailMsg tok.length (sputn s tok).2) ∧
    (saveCsvToken tok s).1 = (sputn s tok).1 ∧
    (∀ str s2, (saveCsvStr str s2).2 = none) := by
  have h : saveCsvToken tok s =
      (if (sputn s tok).2 = tok.length then ((sputn s tok).1, none)
       else ((sputn s tok).1, some (writeFailMsg tok.length (sputn s tok).2))) := rfl
  rw [h, if_neg (by omega)]
  exact ⟨rfl, rfl, fun str s2 => rfl⟩

/-- Witness for the amended C5: writing the token `"42 "` (3 bytes) to a
sink that accepts only 1 byte. -/
theorem c5_write_failure_amended_witness :
    (saveCsvToken [52, 50, 32] ⟨[], 1, false⟩).2 = some (writeFailMsg 3 1) ∧
    (saveCsvToken [52, 50, 32] ⟨[], 1, false⟩).1 = ⟨[52], 1, false⟩ ∧
    (∀ str s2, (saveCsvStr str s2).2 = none) := by
  have h := c5_write_failure_amended [52, 50, 32] ⟨[], 1, false⟩ (by decide)
  exact ⟨h.1, h.2.1, h.2.2⟩

/-! ### Claim C6: empty numeric token -/

/-- C6 counterexample: decoding an integer from the immediately-ending
stream leaves the destination at its *prior* value — here 7 — not at a
defined default such as zero; `from_chars` on an empty range reports
`invalid_argument` and writes nothing. -/
theorem c6_empty_numeric_cex :
    loadCsvInt (-128) 127 7 [] = (7, []) ∧ (7 : Int) ≠ 0 := by
  refine ⟨by decide, by decide⟩

/-- C6 amended: decoding a numeric value from an immediately-ending stream
raises no error and is a no-op on the destination: for any numeric parser
that (like `std::from_chars` on an empty range, for every numeric type)
leaves the destination unmodified when handed an empty token, `loadCsv`
returns the destination unchanged — so a destination initialised to its
default (e.g. zero) stays at that default. -/
theorem c6_empty_numeric_amended {α : Type} (parse : List Nat → α → α) (t : α)
    (hparse : parse [] t = t) :
    loadCsvWith parse t [] = (t, []) := by
  simp [loadCsvWith, scanToken, hparse]

/-- Witness for the amended C6: an 8-bit signed integer destination holding
the default value 0 is left at 0. -/
theorem c6_empty_numeric_amended_witness :
    loadCsvWith (fromCharsInt (-128) 127) 0 [] = (0, []) :=
  c6_empty_numeric_amended (fromCharsInt (-128) 127) 0 (by decide)

/-! ### Claim C7: truncated final token -/

/-- C7: when the stream ends mid-token (no trailing delimiter and no
`0xFF`/space byte anywhere in the remaining bytes), `loadCsv` behaves
exactly as if the stream ended with a delimiter: the partial bytes are
decoded as a complete token and no failure occurs.  The partial token is
bounded by 63 bytes so that all of the scan's stores stay inside the fixed
64-byte scratch buffer; past that bound the source overruns the buffer
(undefined behavior, see the C4 development), so the unbounded list model
is faithful only under this hypothesis. -/
theorem c7_truncated_final_token (lo hi t : Int) (s : List Nat)
    (hclean : ∀ b ∈ s, b ≠ 32 ∧ b ≠ 255) (hlen : s.length ≤ 63) :
    loadCsvInt lo hi t s = loadCsvInt lo hi t (s ++ [32]) ∧
    loadCsvInt lo hi t s = (fromCharsInt lo hi s t, []) := by
  have h1 : scanToken s = (s, []) := scanToken_no_delim hclean
  have h2 : scanToken (s ++ 32 :: []) = (s, []) :=
    scanToken_append_term 32 [] (Or.inl rfl) hclean
  unfold loadCsvInt loadCsvWith
  rw [show s ++ [32] = s ++ 32 :: [] from rfl, h1, h2]
  exact ⟨rfl, rfl⟩

/-- Witness for C7: the stream `"42"` with no trailing delimiter decodes
like `"42 "`. -/
theorem c7_truncated_final_token_witness :
    loadCsvInt (-128) 127 0 [52, 50] = loadCsvInt (-128) 127 0 ([52, 50] ++ [32]) ∧
    loadCsvInt (-128) 127 0 [52, 50] = (fromCharsInt (-128) 127 [52, 50] 0, []) :=
  c7_truncated_final_token (-128) 127 0 [52, 50] (by decide) (by decide)

/-! ### Claim C8: structural wrappers -/

/-- C8: serializing a `NameValuePair` through either archive is exactly the
serialization of its inner value — the name is never written, never read,
and consumes no token — and serializing a `SizeTag` is exactly the
serialization of its count as a plain integer, whose encoding
`intToken c` is the digit bytes followed by a single delimiter and contains
exactly one delimiter byte, i.e. occupies exactly one token. -/
theorem c8_structural_wrappers (nm : List Nat) (v c lo hi t u : Int) (s : OStream)
    (st : List Nat) :
    serializeNVPOut ⟨nm, v⟩ s = saveCsvInt v s ∧
    serializeNVPIn lo hi ⟨nm, t⟩ st =
      (⟨nm, (loadCsvInt lo hi t st).1⟩, (loadCsvInt lo hi t st).2) ∧
    serializeSizeTagOut ⟨c⟩ s = saveCsvInt c s ∧
    serializeSizeTagIn lo hi ⟨u⟩ st =
      (⟨(loadCsvInt lo hi u st).1⟩, (loadCsvInt lo hi u st).2) ∧
    intToken c = intToChars c ++ [32] ∧
    (intToken c).count 32 = 1 := by
  refine ⟨rfl, rfl, rfl, rfl, rfl, ?_⟩
  unfold intToken
  rw [List.count_append]
  have h0 : (intToChars c).count 32 = 0 := by
    rw [List.count_eq_zero]
    intro hmem
    exact ((intToChars_clean c) 32 hmem).1 rfl
  rw [h0]
  rfl

/-! ### Claim C10: a 0xFF byte is indistinguishable from end-of-input -/

/-- C10: the token scan stops at the first `0xFF` byte of the stream exactly
as it stops at end-of-input — `sbumpc`'s result is cast to `char`, mapping
both EOF and the byte 255 to `(char) -1` — so the token collected before a
`0xFF` equals the token collected if the stream had simply ended there, and
no token ever contains a `0xFF` byte.  The bytes before the `0xFF` are
bounded by 63 so that all of the scan's stores stay inside the fixed
64-byte scratch buffer; past that bound the source overruns the buffer
before reaching the `0xFF` (undefined behavior, see the C4 development), so
the unbounded list model is faithful only under this hypothesis. -/
theorem c10_ff_terminates_scan (pre suf : List Nat)
    (hclean : ∀ b ∈ pre, b ≠ 32 ∧ b ≠ 255) (hlen : pre.length ≤ 63) :
    scanToken (pre ++ 255 :: suf) = (pre, suf) ∧
    (scanToken (pre ++ 255 :: suf)).1 = (scanToken pre).1 ∧
    (∀ s : List Nat, 255 ∉ (scanToken s).1) := by
  have h1 := scanToken_append_term 255 suf (Or.inr rfl) hclean
  have h2 := scanToken_no_delim hclean
  exact ⟨h1, by rw [h1, h2], scanToken_not_mem_255⟩

/-- Witness for C10: the stream `"42" 0xFF "a"` scans to the same token as
the stream `"42"` that ends immediately. -/
theorem c10_ff_terminates_scan_witness :
    scanToken ([52, 50] ++ 255 :: [97]) = ([52, 50], [97]) ∧
    (scanToken ([52, 50] ++ 255 :: [97])).1 = (scanToken [52, 50]).1 ∧
    (∀ s : List Nat, 255 ∉ (scanToken s).1) :=
  c10_ff_terminates_scan [52, 50] [97] (by decide) (by decide)

end CerealCsv
